import Mathlib

/-!
Verification of the `scraped` repository (scraped/util.py, scraped/tools.py)
against its natural-language specification.

The development shallowly embeds the pieces of the source the claims touch:

* `is_html_content`  — the content sniffer (util.py, `is_html_content`);
* `html_to_markdown` — the markdown assembler (util.py, `html_to_markdown`);
* the crawl engine    — `RecursiveDownloader.parse` (util.py) together with
  a worklist loop; the loop, offsite filtering and request de-duplication
  live in the scrapy framework, not in this repository, and are modelled
  from the spec (see the doc comments of `enqueueLinks` and `crawlRun`);
* `scrape_multiple_sites` — tools.py.

Python strings are embedded as `List Char`, Python `bytes` as `List Nat`
(byte values 0..255).  Fallible calls return `Except`.  Filesystem access
and the HTML→text converter (`html2text`) are external collaborators and
enter as explicit function parameters.
-/

/-- Is `b` a UTF-8 continuation byte (`0x80..0xBF`)? -/
def contB (b : Nat) : Bool := 0x80 ≤ b && b ≤ 0xBF

/-- Valid range for the second byte of a UTF-8 sequence whose first byte is
`b0` (the constrained rows of the UTF-8 table: `E0`, `ED`, `F0`, `F4`). -/
def cont2ndOk (b0 b1 : Nat) : Bool :=
  if b0 = 0xE0 then 0xA0 ≤ b1 && b1 ≤ 0xBF
  else if b0 = 0xED then 0x80 ≤ b1 && b1 ≤ 0x9F
  else if b0 = 0xF0 then 0x90 ≤ b1 && b1 ≤ 0xBF
  else if b0 = 0xF4 then 0x80 ≤ b1 && b1 ≤ 0x8F
  else contB b1

/-- Strict UTF-8 decoding of a byte list to a list of code points, as
performed by Python's `bytes.decode()` with the default strict error
handler: any invalid, overlong, surrogate, out-of-range or truncated
sequence makes the whole decode fail (`none`). -/
def utf8DecodeStrict : List Nat → Option (List Nat)
  | [] => some []
  | b0 :: bs =>
    if b0 ≤ 0x7F then (utf8DecodeStrict bs).map (b0 :: ·)
    else if 0xC2 ≤ b0 && b0 ≤ 0xDF then
      match bs with
      | b1 :: r =>
        if contB b1 then
          (utf8DecodeStrict r).map (((b0 - 0xC0) * 64 + (b1 - 0x80)) :: ·)
        else none
      | [] => none
    else if 0xE0 ≤ b0 && b0 ≤ 0xEF then
      match bs with
      | b1 :: b2 :: r =>
        if cont2ndOk b0 b1 && contB b2 then
          (utf8DecodeStrict r).map
            (((b0 - 0xE0) * 4096 + (b1 - 0x80) * 64 + (b2 - 0x80)) :: ·)
        else none
      | _ => none
    else if 0xF0 ≤ b0 && b0 ≤ 0xF4 then
      match bs with
      | b1 :: b2 :: b3 :: r =>
        if cont2ndOk b0 b1 && contB b2 && contB b3 then
          (utf8DecodeStrict r).map
            (((b0 - 0xF0) * 262144 + (b1 - 0x80) * 4096 +
              (b2 - 0x80) * 64 + (b3 - 0x80)) :: ·)
        else none
      | _ => none
    else none

/-- Auxiliary decoder for `utf8DecodeIgnore`; the fuel argument (instantiated
with the list length, an upper bound on the number of steps since every step
consumes at least one byte) makes the recursion structural. -/
def utf8DecodeIgnoreAux : Nat → List Nat → List Nat
  | 0, _ => []
  | _, [] => []
  | Nat.succ f, b0 :: bs =>
    if b0 ≤ 0x7F then b0 :: utf8DecodeIgnoreAux f bs
    else if 0xC2 ≤ b0 && b0 ≤ 0xDF then
      match bs with
      | b1 :: r =>
        if contB b1 then
          ((b0 - 0xC0) * 64 + (b1 - 0x80)) :: utf8DecodeIgnoreAux f r
        else utf8DecodeIgnoreAux f (b1 :: r)
      | [] => []
    else if 0xE0 ≤ b0 && b0 ≤ 0xEF then
      match bs with
      | b1 :: r1 =>
        if cont2ndOk b0 b1 then
          match r1 with
          | b2 :: r =>
            if contB b2 then
              ((b0 - 0xE0) * 4096 + (b1 - 0x80) * 64 + (b2 - 0x80)) ::
                utf8DecodeIgnoreAux f r
            else utf8DecodeIgnoreAux f (b2 :: r)
          | [] => []
        else utf8DecodeIgnoreAux f (b1 :: r1)
      | [] => []
    else if 0xF0 ≤ b0 && b0 ≤ 0xF4 then
      match bs with
      | b1 :: r1 =>
        if cont2ndOk b0 b1 then
          match r1 with
          | b2 :: r2 =>
            if contB b2 then
              match r2 with
              | b3 :: r =>
                if contB b3 then
                  ((b0 - 0xF0) * 262144 + (b1 - 0x80) * 4096 +
                    (b2 - 0x80) * 64 + (b3 - 0x80)) :: utf8DecodeIgnoreAux f r
                else utf8DecodeIgnoreAux f (b3 :: r)
              | [] => []
            else utf8DecodeIgnoreAux f (b2 :: r2)
          | [] => []
        else utf8DecodeIgnoreAux f (b1 :: r1)
      | [] => []
    else utf8DecodeIgnoreAux f bs

/-- UTF-8 decoding with Python's `errors='ignore'` handler (used by
`is_html_content` on bytes input, util.py line 218): invalid maximal
subparts are dropped and decoding continues; the function is total. -/
def utf8DecodeIgnore (l : List Nat) : List Nat :=
  utf8DecodeIgnoreAux l.length l

/-- A Python value that is either `bytes` or `str` (the two cases the
pipeline of util.py distinguishes with `isinstance(content, bytes)`). -/
inductive Content where
  | bytes (b : List Nat)
  | str (s : List Char)
deriving DecidableEq, Repr

/-- The fixed, case-insensitive HTML tag tokens of the regex in
`is_html_content` (util.py lines 221-227), in source order. -/
def htmlTagTokens : List (List Char) :=
  ["html", "head", "body", "title", "meta", "link", "script", "style",
   "div", "span", "p", "a", "img", "table", "tr", "td", "ul", "ol", "li",
   "h1", "h2", "h3", "h4", "h5", "h6", "br", "hr", "!--"].map String.toList

/-- Case-insensitive token match at the head of the text, mirroring how the
`re.IGNORECASE` alternation of `is_html_content` matches one alternative:
each (lowercase) token character must equal the lowercased text character. -/
def matchTokenCI : List Char → List Char → Bool
  | [], _ => true
  | _ :: _, [] => false
  | t :: ts, c :: cs => (Char.toLower c == t) && matchTokenCI ts cs

/-- The `re.search` of `is_html_content`: scan the text for a position
holding a literal `<` followed by one of the tag tokens. -/
def htmlSearch : List Char → Bool
  | [] => false
  | c :: cs =>
    (c == '<' && htmlTagTokens.any (fun t => matchTokenCI t cs)) || htmlSearch cs

/-- The content sniffer `is_html_content` (util.py lines 203-231): bytes are
first decoded as UTF-8 with `errors='ignore'`, then the tag regex is
searched in the text. -/
def is_html_content : Content → Bool
  | .str s => htmlSearch s
  | .bytes b => htmlSearch ((utf8DecodeIgnore b).map Char.ofNat)

/-- Specification-side predicate for C9, written from the spec's words:
the content has, somewhere, an occurrence of `<` followed (case
insensitively) by one of the fixed tag tokens. -/
def HasHtmlTagOccurrence (cs : List Char) : Prop :=
  ∃ pre rest, cs = pre ++ '<' :: rest ∧
    ∃ t ∈ htmlTagTokens, t <+: rest.map Char.toLower

/-- Abstract filesystem interface used by `html_to_markdown` (util.py):
`isDir` models `Path(htmls).is_dir()`, `rglobFiles` models
`filter(Path.is_file, Path(htmls).rglob("*"))` (the regular files under the
directory, recursively, in traversal order), and `readBytes` models
`Path(filepath).read_bytes()`. -/
structure FS where
  isDir : List Char → Bool
  rglobFiles : List Char → List (List Char)
  readBytes : List Char → List Nat

/-- The `htmls` argument of `html_to_markdown`
(`Union[str, Iterable[str], Mapping[str, str]]`): a single string, an
iterable of file paths that is neither a string nor a mapping (embedded as a
list), or a name-to-content mapping (embedded as an association list in
iteration order). -/
inductive Htmls where
  | str (s : List Char)
  | iter (paths : List (List Char))
  | mapping (m : List (List Char × Content))

/-- Errors of the assembler.  `unboundLocal` models Python's
`UnboundLocalError` (a local variable referenced before assignment). -/
inductive AssembleError where
  | unboundLocal
deriving DecidableEq, Repr

/-- The `".html"` suffix tested by `htmls.endswith(".html")`. -/
def htmlExt : List Char := ".html".toList

/-- The input dispatch of `html_to_markdown` (util.py lines 272-294),
producing the `html_contents` the conversion loop consumes:

* a mapping: `filter(content_filt, htmls.values())` — values filtered by the
  content filter, nothing read from disk;
* a string ending in `".html"`: that one file's bytes;
* a string of fewer than 1000 characters naming an existing directory: the
  bytes of every regular file under it, with no content filter;
* any other string: the string itself, taken as literal HTML content;
* any other iterable: in the source the assignment
  `html_contents = map(read_html_file, htmls)` is commented out, so the
  local `html_contents` is never assigned on this path and its first use
  raises `UnboundLocalError`; modelled as an immediate error. -/
def selectContents (fs : FS) (content_filt : Content → Bool) :
    Htmls → Except AssembleError (List Content)
  | .mapping m => .ok ((m.map Prod.snd).filter content_filt)
  | .str s =>
    if htmlExt.isSuffixOf s then .ok [Content.bytes (fs.readBytes s)]
    else if s.length < 1000 ∧ fs.isDir s = true then
      .ok ((fs.rglobFiles s).map (fun p => Content.bytes (fs.readBytes p)))
    else .ok [Content.str s]
  | .iter _ => .error .unboundLocal

/-- Per-blob decoding step of `_markdown_contents` (util.py lines 302-312):
a `bytes` blob goes through `html_content.decode()` — strict UTF-8, which
may fail — while a `str` blob is passed to the converter unchanged. -/
def decodeContent : Content → Option (List Char)
  | .str s => some s
  | .bytes b => (utf8DecodeStrict b).map (List.map Char.ofNat)

/-- The conversion loop `_markdown_contents` (util.py lines 302-314): each
blob is decoded and converted; a `UnicodeDecodeError` is caught, a report is
printed (second component collects the reported blobs) and the loop
continues with the remaining blobs.  `conv` is the external
`html2text.HTML2Text().handle` converter. -/
def markdownContents (conv : List Char → List Char) :
    List Content → List (List Char) × List Content
  | [] => ([], [])
  | c :: rest =>
    match decodeContent c with
    | some s => (conv s :: (markdownContents conv rest).1,
                 (markdownContents conv rest).2)
    | none => ((markdownContents conv rest).1,
               c :: (markdownContents conv rest).2)

/-- Weaving of one prefix string with one markdown block:
the f-string interpolation producing prefix, newline, markdown
(util.py line 318). -/
def weave (p md : List Char) : List Char := p ++ '\n' :: md

/-- The optional prefix pass (util.py lines 316-320): `if prefixes:` is
false for `None` and for an empty list; otherwise
`zip(prefixes, markdown_contents)` pairs prefixes with converted blocks,
truncating to the shorter of the two lists. -/
def weavePrefixes (po : Option (List (List Char)))
    (mds : List (List Char)) : List (List Char) :=
  match po with
  | none => mds
  | some ps => if ps.isEmpty then mds else List.zipWith weave ps mds

/-- The default aggregator `"\n\n".join` (util.py line 240). -/
def joinBlocks (l : List (List Char)) : List Char :=
  List.intercalate ['\n', '\n'] l

/-- The assembler `html_to_markdown` (util.py lines 235-327) in its
`save_filepath=None` form: select the HTML contents, convert them
(collecting decode-failure reports in the second component), weave optional
prefixes, and aggregate with `agg` (default `joinBlocks`).  When a save path
is given the source writes this same string to the path and returns the
path; the claims only concern the assembled string. -/
def html_to_markdown (fs : FS) (conv : List Char → List Char)
    (content_filt : Content → Bool) (agg : List (List Char) → List Char)
    (po : Option (List (List Char))) (htmls : Htmls) :
    Except AssembleError (List Char × List Content) :=
  match selectContents fs content_filt htmls with
  | .error e => .error e
  | .ok contents =>
    .ok (agg (weavePrefixes po (markdownContents conv contents).1),
         (markdownContents conv contents).2)

/-- A filesystem with no directories and no files, for concrete runs. -/
def fsEmpty : FS :=
  { isDir := fun _ => false, rglobFiles := fun _ => [], readBytes := fun _ => [] }

/-- URLs are embedded as strings. -/
abbrev Url := String

/-- The external web and link-extraction collaborators of the crawl:
`host` models `urlparse(url).netloc`, `links` models the sequence of
absolute link targets `LinkExtractor().extract_links(response)` yields for
the fetched page (fetching itself is abstracted: every frontier URL
fetches successfully, which is the interesting case for the claims). -/
structure Web where
  host : Url → String
  links : Url → List Url

/-- Crawl configuration, from `RecursiveDownloader.__init__` (util.py lines
99-125): start URL, maximum depth (`self.depth`), optional URL filter
(`self.filter_urls`), the `mk_missing_dirs` flag, the URL-to-filepath
mapping, and the directories existing on disk when the crawl starts. -/
structure CrawlConfig where
  startUrl : Url
  maxDepth : Nat
  filterUrls : Option (Url → Bool)
  mkMissingDirs : Bool
  urlToFilepath : Url → String
  initialDirs : List String

/-- Fatal crawl error: `missingDirectory` models the `FileNotFoundError`
raised in `parse` (util.py lines 136-138) when the save directory is
missing and `mk_missing_dirs` is false; the spec names it
`MissingDirectoryError`. -/
inductive CrawlError where
  | missingDirectory
deriving DecidableEq, Repr

/-- Mutable crawl state: the frontier of pending `(url, depth)` requests,
the set of URLs already enqueued or fetched (scrapy's request dupefilter),
the directories existing on disk, and the persisted pages as
`(url, depth, filepath)` triples in the order they were written. -/
structure CrawlState where
  frontier : List (Url × Nat)
  visited : List Url
  dirs : List String
  saved : List (Url × Nat × String)
deriving DecidableEq, Repr

/-- The check `if not self.filter_urls or self.filter_urls(link.url)`
(util.py line 151): no filter means every link passes. -/
def passFilter (cfg : CrawlConfig) (u : Url) : Bool :=
  match cfg.filterUrls with
  | none => true
  | some f => f u

/-- The allowed domain set, from util.py line 112:
`self.allowed_domains = [urlparse(start_url).netloc]`. -/
def allowedDomains (w : Web) (cfg : CrawlConfig) : List String :=
  [w.host cfg.startUrl]

/-- Python's `os.path.dirname` on the embedded strings: the part of the
path before its last slash (keeping a head that is all slashes, stripping
the trailing slash otherwise). -/
def dirname (p : String) : String :=
  let cs := p.toList
  let head := (cs.reverse.dropWhile (fun c => ¬ c = '/')).reverse
  let stripped := (head.reverse.dropWhile (fun c => c = '/')).reverse
  if head.isEmpty then ("") else
  if stripped.isEmpty then String.mk head else String.mk stripped

/-- Modelled from the spec: admission of the links a page yields into the
frontier.  The filtered links come from `parse` (util.py lines 149-154);
the admission itself — "apply domain confinement (link host must be in
`allowed_domains` ...) ... for each surviving link not already in
VisitedSet, mark visited and enqueue at `depth+1`" — is performed by
scrapy's offsite middleware, dupefilter and scheduler, which are not part
of this repository. -/
def enqueueLinks (w : Web) (cfg : CrawlConfig) (d : Nat) :
    List Url → CrawlState → CrawlState
  | [], st => st
  | l :: ls, st =>
    if w.host l ∈ allowedDomains w cfg ∧ l ∉ st.visited then
      enqueueLinks w cfg d ls
        { st with visited := l :: st.visited,
                  frontier := st.frontier ++ [(l, d + 1)] }
    else enqueueLinks w cfg d ls st

/-- The body of `RecursiveDownloader.parse` (util.py lines 127-154) for one
fetched page at depth `d` (`response.meta.get('depth', 0)`): compute the
save path, persist the body (append to `saved`), and — only when
`d < self.depth` — extract the page's links, keep those passing
`filter_urls`, and hand them to `enqueueLinks`.  The directory check is in
`parseStep` below. -/
def processPage (w : Web) (cfg : CrawlConfig) (u : Url) (d : Nat)
    (st : CrawlState) : CrawlState :=
  let st2 := { st with saved := st.saved ++ [(u, d, cfg.urlToFilepath u)] }
  if d < cfg.maxDepth then
    enqueueLinks w cfg d ((w.links u).filter (passFilter cfg)) st2
  else st2

/-- The directory-handling head of `parse` (util.py lines 129-141): if the
directory of the save path does not exist, it is created when
`mk_missing_dirs` is set, and otherwise a `FileNotFoundError` is raised. -/
def parseStep (w : Web) (cfg : CrawlConfig) (u : Url) (d : Nat)
    (st : CrawlState) : Except CrawlError CrawlState :=
  if dirname (cfg.urlToFilepath u) ∈ st.dirs then
    .ok (processPage w cfg u d st)
  else if cfg.mkMissingDirs then
    .ok (processPage w cfg u d
      { st with dirs := dirname (cfg.urlToFilepath u) :: st.dirs })
  else .error .missingDirectory

/-- Modelled from the spec: the crawl worklist loop ("While frontier
non-empty: dequeue an entry (URL, depth) ... Termination: frontier
empties, or a global error (directory creation failure) aborts the whole
run", spec section 4.5).  The scheduler driving `parse` lives in scrapy,
not in this repository.  Fuel bounds the number of iterations; running out
of fuel returns the state reached so far. -/
def crawlRun (w : Web) (cfg : CrawlConfig) :
    Nat → CrawlState → Except CrawlError CrawlState
  | 0, st => .ok st
  | Nat.succ fuel, st =>
    match st.frontier with
    | [] => .ok st
    | (u, d) :: rest =>
      match parseStep w cfg u d { st with frontier := rest } with
      | .error e => .error e
      | .ok st1 => crawlRun w cfg fuel st1

/-- Initial crawl state: the start URL seeded at depth 0 and marked
visited; the directories are those existing when the crawl starts. -/
def initState (cfg : CrawlConfig) : CrawlState :=
  { frontier := [(cfg.startUrl, 0)], visited := [cfg.startUrl],
    dirs := cfg.initialDirs, saved := [] }

/-- URLs reachable from the start URL through the links the engine actually
follows: each hop needs the source page's depth below the bound, the link
extracted from the page, the user filter passed, and the link's host equal
to the start URL's host. -/
inductive ReachableN (w : Web) (cfg : CrawlConfig) : Url → Nat → Prop where
  | start : ReachableN w cfg cfg.startUrl 0
  | step {u : Url} {n : Nat} {l : Url} :
      ReachableN w cfg u n → n < cfg.maxDepth → l ∈ w.links u →
      passFilter cfg l = true → w.host l = w.host cfg.startUrl →
      ReachableN w cfg l (n + 1)

/-- Raw link-graph reachability in exactly `n` hops, with no depth, filter
or domain conditions: the "link chain" of the claim's wording. -/
inductive ReachableRaw (w : Web) (cfg : CrawlConfig) : Url → Nat → Prop where
  | start : ReachableRaw w cfg cfg.startUrl 0
  | step {u : Url} {n : Nat} {l : Url} :
      ReachableRaw w cfg u n → l ∈ w.links u → ReachableRaw w cfg l (n + 1)

/-- Error of `scrape_multiple_sites` (tools.py line 195):
`NotADirectoryError` for a bad save directory. -/
inductive ToolError where
  | notADirectory
deriving DecidableEq, Repr

/-- Does an `Except` hold a value (Python: the body ran without raising)? -/
def exceptIsOk : Except ε α → Bool
  | .ok _ => true
  | .error _ => false

/-- The generator `gen` of `scrape_multiple_sites` (tools.py lines
197-208), folded with the surrounding `dict(...)`: for each `(name, url)`
in order, scrape the url; on success write the markdown to
`save_dir/name.md` (first component collects the writes); on any exception
print the error and yield the `(name, url)` pair (second component). -/
def scrapeGen (scrape : String → Except String String) (saveDir : String) :
    List (String × String) → List (String × String) × List (String × String)
  | [] => ([], [])
  | (name, url) :: rest =>
    match scrape url with
    | .ok md => ((saveDir ++ "/" ++ name ++ ".md", md) ::
                   (scrapeGen scrape saveDir rest).1,
                 (scrapeGen scrape saveDir rest).2)
    | .error _ => ((scrapeGen scrape saveDir rest).1,
                   (name, url) :: (scrapeGen scrape saveDir rest).2)

/-- The function `scrape_multiple_sites` (tools.py lines 173-209): raise
`NotADirectoryError` when the (expanded, absolutised — folded into `isDir`)
save directory is not a directory, before any scraping; otherwise run the
generator over all sites and return the mapping of failed pairs (the
written files are carried so the claims can speak about them). -/
def scrape_multiple_sites (isDir : String → Bool)
    (scrape : String → Except String String)
    (name_and_url : List (String × String)) (save_dir : String) :
    Except ToolError (List (String × String) × List (String × String)) :=
  if isDir save_dir then .ok (scrapeGen scrape save_dir name_and_url)
  else .error .notADirectory

/-- Characterization of the conversion loop: the converted blocks are
exactly the images of the blobs whose strict decode succeeds, in order, and
the reported blobs are exactly those whose decode fails. -/
theorem markdownContents_eq (conv : List Char → List Char) (cs : List Content) :
    markdownContents conv cs =
      (cs.filterMap (fun c => (decodeContent c).map conv),
       cs.filter (fun c => (decodeContent c).isNone)) := by
  induction cs with
  | nil => rfl
  | cons c rest ih =>
    cases hdec : decodeContent c with
    | none => simp [markdownContents, hdec, ih]
    | some s => simp [markdownContents, hdec, ih]

/-- C2 (code_bug evaluation): for every iterable of file paths — neither a
single string nor a mapping — `html_to_markdown` does not read and convert
the listed files; it raises `UnboundLocalError`, because the assignment
`html_contents = map(read_html_file, htmls)` is commented out in the
source (util.py line 294).  The second conjunct evaluates the failing
input of the claim record, a list of two file paths. -/
theorem html_to_markdown_iter_unbound :
    (∀ (fs : FS) (conv : List Char → List Char) (filt : Content → Bool)
       (agg : List (List Char) → List Char) (po : Option (List (List Char)))
       (l : List (List Char)),
       html_to_markdown fs conv filt agg po (Htmls.iter l) =
         .error .unboundLocal) ∧
    html_to_markdown fsEmpty (fun s => s) is_html_content joinBlocks none
        (Htmls.iter ["a.html".toList, "b.html".toList]) =
      .error .unboundLocal := by
  exact ⟨fun _ _ _ _ _ _ => rfl, rfl⟩

/-- C1 (counterexample): calling the assembler with 2 prefixes against 3
surviving HTML contents does not raise `PrefixCountMismatchError` — no such
error exists in the source; the call returns normally, with the prefixes
zipped against the first two converted blocks and the third block dropped. -/
theorem prefix_mismatch_no_error :
    (([(("a".toList : List Char), Content.str ("ca".toList)),
       ("b".toList, Content.str ("cb".toList)),
       ("c".toList, Content.str ("cc".toList))].map Prod.snd).filter
         (fun _ => true)).length = 3 ∧
    ["P".toList, "Q".toList].length = 2 ∧
    html_to_markdown fsEmpty (fun s => s) (fun _ => true) joinBlocks
        (some ["P".toList, "Q".toList])
        (Htmls.mapping
          [("a".toList, Content.str ("ca".toList)),
           ("b".toList, Content.str ("cb".toList)),
           ("c".toList, Content.str ("cc".toList))]) =
      .ok ("P\nca\n\nQ\ncb".toList, []) := by
  refine ⟨by decide, by decide, by rfl⟩

/-- C1 (amended): when a non-empty prefix list is supplied whose length
differs from the number of surviving contents, the assembler does not
signal an error; it weaves prefixes and converted blocks by `zip`, so the
output holds `min(number of prefixes, number of converted blocks)` woven
blocks and the unpaired remainder is silently dropped. -/
theorem prefix_weaving_truncates (fs : FS) (conv : List Char → List Char)
    (filt : Content → Bool) (agg : List (List Char) → List Char)
    (ps : List (List Char)) (m : List (List Char × Content))
    (hps : ps ≠ []) :
    html_to_markdown fs conv filt agg (some ps) (Htmls.mapping m) =
      .ok (agg (List.zipWith weave ps
             (markdownContents conv ((m.map Prod.snd).filter filt)).1),
           (markdownContents conv ((m.map Prod.snd).filter filt)).2) ∧
    ∀ mds : List (List Char),
      (List.zipWith weave ps mds).length = min ps.length mds.length := by
  constructor
  · simp [html_to_markdown, selectContents, weavePrefixes,
          List.isEmpty_iff, hps]
  · intro mds; exact List.length_zipWith ..

/-- C1 (witness for the amended theorem), at the 2-prefix configuration. -/
theorem prefix_weaving_truncates_witness :
    (["P".toList, "Q".toList] ≠ ([] : List (List Char))) ∧
    (html_to_markdown fsEmpty (fun s => s) (fun _ => true) joinBlocks
        (some ["P".toList, "Q".toList])
        (Htmls.mapping [("a".toList, Content.str ("xx".toList))]) =
      .ok (joinBlocks (List.zipWith weave ["P".toList, "Q".toList]
             (markdownContents (fun s => s)
               (([(("a".toList : List Char), Content.str ("xx".toList))].map
                   Prod.snd).filter (fun _ => true))).1),
           (markdownContents (fun s => s)
             (([(("a".toList : List Char), Content.str ("xx".toList))].map
                 Prod.snd).filter (fun _ => true))).2) ∧
      ∀ mds : List (List Char),
        (List.zipWith weave ["P".toList, "Q".toList] mds).length =
          min ["P".toList, "Q".toList].length mds.length) :=
  ⟨by decide,
   prefix_weaving_truncates fsEmpty (fun s => s) (fun _ => true) joinBlocks
     ["P".toList, "Q".toList] [("a".toList, Content.str ("xx".toList))]
     (by decide)⟩

/-- C5: for a mapping source every value failing the content filter is
dropped silently before conversion and only surviving values are converted;
for a directory source (a short string naming an existing directory, not
ending in `".html"`) every regular file under it is read as bytes and
converted with no content filter applied. -/
theorem mapping_filtered_directory_unconditional (fs : FS)
    (conv : List Char → List Char) (filt : Content → Bool)
    (agg : List (List Char) → List Char) :
    (∀ m : List (List Char × Content),
       html_to_markdown fs conv filt agg none (Htmls.mapping m) =
         .ok (agg (markdownContents conv ((m.map Prod.snd).filter filt)).1,
              (markdownContents conv ((m.map Prod.snd).filter filt)).2)) ∧
    (∀ s : List Char, htmlExt.isSuffixOf s = false → s.length < 1000 →
       fs.isDir s = true →
       html_to_markdown fs conv filt agg none (Htmls.str s) =
         .ok (agg (markdownContents conv ((fs.rglobFiles s).map
                (fun p => Content.bytes (fs.readBytes p)))).1,
              (markdownContents conv ((fs.rglobFiles s).map
                (fun p => Content.bytes (fs.readBytes p)))).2)) := by
  constructor
  · intro m; rfl
  · intro s hsuf hlen hdir
    simp [html_to_markdown, selectContents, hsuf, hlen, hdir, weavePrefixes]

/-- A filesystem where every string names a directory holding one regular
file whose bytes are `"hi"`, for concrete runs. -/
def fsDir : FS :=
  { isDir := fun _ => true, rglobFiles := fun _ => [['f']],
    readBytes := fun _ => [104, 105] }

/-- C5 (witness): the directory branch of the theorem at the directory
name `"d"`, and the mapping branch at a one-entry mapping. -/
theorem mapping_filtered_directory_unconditional_witness :
    (htmlExt.isSuffixOf ("d".toList) = false ∧ ("d".toList).length < 1000 ∧
     fsDir.isDir ("d".toList) = true) ∧
    html_to_markdown fsDir (fun s => s) is_html_content joinBlocks none
        (Htmls.str ("d".toList)) =
      .ok (joinBlocks (markdownContents (fun s => s)
             ((fsDir.rglobFiles ("d".toList)).map
               (fun p => Content.bytes (fsDir.readBytes p)))).1,
           (markdownContents (fun s => s)
             ((fsDir.rglobFiles ("d".toList)).map
               (fun p => Content.bytes (fsDir.readBytes p)))).2) ∧
    html_to_markdown fsDir (fun s => s) is_html_content joinBlocks none
        (Htmls.mapping [("n".toList, Content.str ("<p>hi".toList))]) =
      .ok (joinBlocks (markdownContents (fun s => s)
             (([(("n".toList : List Char), Content.str ("<p>hi".toList))].map
                 Prod.snd).filter is_html_content)).1,
           (markdownContents (fun s => s)
             (([(("n".toList : List Char), Content.str ("<p>hi".toList))].map
                 Prod.snd).filter is_html_content)).2) :=
  ⟨⟨by decide, by decide, rfl⟩,
   (mapping_filtered_directory_unconditional fsDir (fun s => s)
       is_html_content joinBlocks).2 ("d".toList) (by decide) (by decide) rfl,
   (mapping_filtered_directory_unconditional fsDir (fun s => s)
       is_html_content joinBlocks).1
     [("n".toList, Content.str ("<p>hi".toList))]⟩

/-- C6 (counterexample): the per-blob decode of the assembler is strict,
not permissive: on the byte `0xFF` it fails instead of replacing the
invalid sequence, and the failing blob is dropped from the output — a
batch of two surviving blobs yields one converted block, not two. -/
theorem strict_decode_counterexample :
    decodeContent (Content.bytes [255]) = none ∧
    (markdownContents (fun s => s)
       [Content.bytes [104, 105], Content.bytes [255]]).1 = [['h', 'i']] ∧
    [Content.bytes [104, 105], Content.bytes [255]].length = 2 := by
  refine ⟨by rfl, by decide, by decide⟩

/-- C6 (amended): each surviving blob is decoded as strict UTF-8; a decode
failure on one blob does not abort the batch — the failing blob is skipped
with a printed report (collected in the second component) and every other
blob is still converted and included, in order. -/
theorem decode_failure_skips_blob (conv : List Char → List Char)
    (cs : List Content) :
    markdownContents conv cs =
      (cs.filterMap (fun c => (decodeContent c).map conv),
       cs.filter (fun c => (decodeContent c).isNone)) :=
  markdownContents_eq conv cs

/-- C10: a string source that does not end in `".html"` and is not a short
string naming an existing directory is treated as literal HTML content —
the output is the conversion of the string itself, independent of the
filesystem, and nothing is read from disk for it. -/
theorem literal_string_treated_as_content (fs : FS)
    (conv : List Char → List Char) (filt : Content → Bool)
    (agg : List (List Char) → List Char) (s : List Char)
    (h1 : htmlExt.isSuffixOf s = false)
    (h2 : ¬ (s.length < 1000 ∧ fs.isDir s = true)) :
    html_to_markdown fs conv filt agg none (Htmls.str s) =
      .ok (agg [conv s], []) := by
  simp [html_to_markdown, selectContents, h1, h2, weavePrefixes,
        markdownContents, decodeContent]

/-- C10 (witness): the literal string `"just some text"` against the empty
filesystem. -/
theorem literal_string_treated_as_content_witness :
    htmlExt.isSuffixOf ("just some text".toList) = false ∧
    ¬ (("just some text".toList).length < 1000 ∧
        fsEmpty.isDir ("just some text".toList) = true) ∧
    html_to_markdown fsEmpty (fun s => s) is_html_content joinBlocks none
        (Htmls.str ("just some text".toList)) =
      .ok (joinBlocks ["just some text".toList], []) :=
  ⟨by decide, by decide,
   literal_string_treated_as_content fsEmpty (fun s => s) is_html_content
     joinBlocks ("just some text".toList) (by decide) (by decide)⟩

/-- A token alternative matches at the head of a text exactly when the
(lowercase) token is a prefix of the lowercased text. -/
theorem matchTokenCI_iff (t : List Char) : ∀ cs : List Char,
    matchTokenCI t cs = true ↔ t <+: cs.map Char.toLower := by
  induction t with
  | nil => intro cs; simp [matchTokenCI]
  | cons a ts ih =>
    intro cs
    cases cs with
    | nil => simp [matchTokenCI]
    | cons c cs =>
      rw [List.map_cons, List.cons_prefix_cons]
      simp only [matchTokenCI, Bool.and_eq_true, beq_iff_eq, ih]
      constructor
      · rintro ⟨h1, h2⟩; exact ⟨h1.symm, h2⟩
      · rintro ⟨h1, h2⟩; exact ⟨h1.symm, h2⟩

/-- The regex search succeeds exactly when the text has an occurrence of
`<` followed by one of the tag tokens. -/
theorem htmlSearch_iff (cs : List Char) :
    htmlSearch cs = true ↔ HasHtmlTagOccurrence cs := by
  induction cs with
  | nil =>
    simp only [htmlSearch, HasHtmlTagOccurrence, Bool.false_eq_true,
               false_iff]
    rintro ⟨pre, rest, heq, -⟩
    exact absurd heq (by simp)
  | cons c cs ih =>
    simp only [htmlSearch, Bool.or_eq_true, Bool.and_eq_true, beq_iff_eq,
               List.any_eq_true, HasHtmlTagOccurrence] at ih ⊢
    constructor
    · rintro (⟨hc, t, ht, hm⟩ | h)
      · exact ⟨[], cs, by simp [hc], t, ht, (matchTokenCI_iff t cs).1 hm⟩
      · obtain ⟨pre, rest, heq, ht⟩ := ih.1 h
        exact ⟨c :: pre, rest, by simp [heq], ht⟩
    · rintro ⟨pre, rest, heq, t, ht, hpre⟩
      cases pre with
      | nil =>
        simp only [List.nil_append, List.cons.injEq] at heq
        obtain ⟨hc, hcs⟩ := heq
        exact Or.inl ⟨hc, t, ht, (matchTokenCI_iff t cs).2 (hcs ▸ hpre)⟩
      | cons p pre =>
        simp only [List.cons_append, List.cons.injEq] at heq
        obtain ⟨-, hcs⟩ := heq
        exact Or.inr (ih.2 ⟨pre, rest, hcs, t, ht, hpre⟩)

/-- C9: the content sniffer is total on bytes and strings (bytes are first
decoded with the permissive `errors='ignore'` handler, then treated as a
string), a string is classified as HTML exactly when it contains an
occurrence of `<` followed by one of the fixed case-insensitive tag
tokens, and the two examples of the spec evaluate as stated. -/
theorem is_html_content_characterization :
    (∀ s : List Char,
       is_html_content (Content.str s) = true ↔ HasHtmlTagOccurrence s) ∧
    (∀ b : List Nat,
       is_html_content (Content.bytes b) =
         is_html_content (Content.str ((utf8DecodeIgnore b).map Char.ofNat))) ∧
    is_html_content (Content.str ("<html><body>hi</body></html>".toList)) =
      true ∧
    is_html_content (Content.str ("just plain text".toList)) = false := by
  refine ⟨fun s => ?_, fun b => rfl, by decide, by decide⟩
  simpa [is_html_content] using htmlSearch_iff s

/-- Admitting links never touches the persisted pages. -/
theorem enqueueLinks_saved (w : Web) (cfg : CrawlConfig) (d : Nat) :
    ∀ (ls : List Url) (st : CrawlState),
      (enqueueLinks w cfg d ls st).saved = st.saved := by
  intro ls
  induction ls with
  | nil => intro st; rfl
  | cons l ls ih =>
    intro st
    simp only [enqueueLinks]
    split
    · exact ih _
    · exact ih _

/-- Admitting links never touches the directory set. -/
theorem enqueueLinks_dirs (w : Web) (cfg : CrawlConfig) (d : Nat) :
    ∀ (ls : List Url) (st : CrawlState),
      (enqueueLinks w cfg d ls st).dirs = st.dirs := by
  intro ls
  induction ls with
  | nil => intro st; rfl
  | cons l ls ih =>
    intro st
    simp only [enqueueLinks]
    split
    · exact ih _
    · exact ih _

/-- Every frontier entry after link admission was already in the frontier,
or is one of the offered links enqueued at `d + 1` with its host equal to
the start URL's host. -/
theorem enqueueLinks_frontier (w : Web) (cfg : CrawlConfig) (d : Nat) :
    ∀ (ls : List Url) (st : CrawlState) (p : Url × Nat),
      p ∈ (enqueueLinks w cfg d ls st).frontier →
      p ∈ st.frontier ∨
        (p.1 ∈ ls ∧ p.2 = d + 1 ∧ w.host p.1 = w.host cfg.startUrl) := by
  intro ls
  induction ls with
  | nil => intro st p hp; exact Or.inl hp
  | cons l ls ih =>
    intro st p hp
    simp only [enqueueLinks] at hp
    by_cases hc : w.host l ∈ allowedDomains w cfg ∧ l ∉ st.visited
    · rw [if_pos hc] at hp
      rcases ih _ p hp with h | ⟨h1, h2, h3⟩
      · rcases List.mem_append.1 h with h | h
        · exact Or.inl h
        · have hpl : p = (l, d + 1) := by simpa using h
          subst hpl
          refine Or.inr ⟨List.mem_cons_self .., rfl, ?_⟩
          simpa [allowedDomains] using hc.1
      · exact Or.inr ⟨List.mem_cons_of_mem _ h1, h2, h3⟩
    · rw [if_neg hc] at hp
      rcases ih _ p hp with h | ⟨h1, h2, h3⟩
      · exact Or.inl h
      · exact Or.inr ⟨List.mem_cons_of_mem _ h1, h2, h3⟩

/-- Processing a page appends exactly that page to the persisted list. -/
theorem processPage_saved (w : Web) (cfg : CrawlConfig) (u : Url) (d : Nat)
    (st : CrawlState) :
    (processPage w cfg u d st).saved =
      st.saved ++ [(u, d, cfg.urlToFilepath u)] := by
  unfold processPage
  split
  · rw [enqueueLinks_saved]
  · rfl

/-- Processing a page never touches the directory set. -/
theorem processPage_dirs (w : Web) (cfg : CrawlConfig) (u : Url) (d : Nat)
    (st : CrawlState) :
    (processPage w cfg u d st).dirs = st.dirs := by
  unfold processPage
  split
  · rw [enqueueLinks_dirs]
  · rfl

/-- Every frontier entry after processing a page at depth `d` was already
pending, or is a link of that page that passed the user filter, enqueued at
`d + 1` with the start URL's host — and links are only admitted at all when
`d` is strictly below the depth bound. -/
theorem processPage_frontier (w : Web) (cfg : CrawlConfig) (u : Url)
    (d : Nat) (st : CrawlState) (p : Url × Nat)
    (hp : p ∈ (processPage w cfg u d st).frontier) :
    p ∈ st.frontier ∨
      (d < cfg.maxDepth ∧ p.1 ∈ w.links u ∧ passFilter cfg p.1 = true ∧
       p.2 = d + 1 ∧ w.host p.1 = w.host cfg.startUrl) := by
  unfold processPage at hp
  split at hp
  · rcases enqueueLinks_frontier w cfg d _ _ p hp with h | ⟨h1, h2, h3⟩
    · exact Or.inl h
    · obtain ⟨hl, hpf⟩ := List.mem_filter.1 h1
      exact Or.inr ⟨by assumption, hl, hpf, h2, h3⟩
  · exact Or.inl hp

/-- The invariant "every pending and persisted page is engine-reachable at
its recorded depth" is preserved by processing one reachable page. -/
theorem processPage_inv (w : Web) (cfg : CrawlConfig) (u : Url) (d : Nat)
    (st : CrawlState) (hu : ReachableN w cfg u d)
    (hf : ∀ p ∈ st.frontier, ReachableN w cfg p.1 p.2)
    (hs : ∀ e ∈ st.saved, ReachableN w cfg e.1 e.2.1) :
    (∀ p ∈ (processPage w cfg u d st).frontier, ReachableN w cfg p.1 p.2) ∧
    (∀ e ∈ (processPage w cfg u d st).saved, ReachableN w cfg e.1 e.2.1) := by
  constructor
  · intro p hp
    rcases processPage_frontier w cfg u d st p hp with h | ⟨hd, hl, hpf, h2, hh⟩
    · exact hf p h
    · rw [h2]
      exact ReachableN.step hu hd hl hpf hh
  · intro e he
    rw [processPage_saved] at he
    rcases List.mem_append.1 he with h | h
    · exact hs e h
    · have : e = (u, d, cfg.urlToFilepath u) := by simpa using h
      subst this
      exact hu

/-- The invariant is preserved by one successful `parse` callback. -/
theorem parseStep_inv (w : Web) (cfg : CrawlConfig) (u : Url) (d : Nat)
    (st st' : CrawlState) (hstep : parseStep w cfg u d st = .ok st')
    (hu : ReachableN w cfg u d)
    (hf : ∀ p ∈ st.frontier, ReachableN w cfg p.1 p.2)
    (hs : ∀ e ∈ st.saved, ReachableN w cfg e.1 e.2.1) :
    (∀ p ∈ st'.frontier, ReachableN w cfg p.1 p.2) ∧
    (∀ e ∈ st'.saved, ReachableN w cfg e.1 e.2.1) := by
  unfold parseStep at hstep
  split at hstep
  · rw [Except.ok.injEq] at hstep
    subst hstep
    exact processPage_inv w cfg u d st hu hf hs
  · split at hstep
    · rw [Except.ok.injEq] at hstep
      subst hstep
      exact processPage_inv w cfg u d _ hu hf hs
    · exact absurd hstep (by simp)

/-- The invariant is carried through the whole crawl loop: if the run ends
normally, every persisted page is engine-reachable at its recorded depth. -/
theorem crawlRun_saved (w : Web) (cfg : CrawlConfig) :
    ∀ (fuel : Nat) (st st' : CrawlState),
      crawlRun w cfg fuel st = .ok st' →
      (∀ p ∈ st.frontier, ReachableN w cfg p.1 p.2) →
      (∀ e ∈ st.saved, ReachableN w cfg e.1 e.2.1) →
      ∀ e ∈ st'.saved, ReachableN w cfg e.1 e.2.1 := by
  intro fuel
  induction fuel with
  | zero =>
    intro st st' h hf hs
    rw [crawlRun, Except.ok.injEq] at h
    subst h
    exact hs
  | succ fuel ih =>
    intro st st' h hf hs
    rw [crawlRun] at h
    cases hfr : st.frontier with
    | nil =>
      rw [hfr] at h
      simp only [Except.ok.injEq] at h
      subst h
      exact hs
    | cons p rest =>
      obtain ⟨u, d⟩ := p
      rw [hfr] at h
      have h2 : (match parseStep w cfg u d { st with frontier := rest } with
          | Except.error e => Except.error e
          | Except.ok st1 => crawlRun w cfg fuel st1) = Except.ok st' := h
      clear h
      cases hps : parseStep w cfg u d { st with frontier := rest } with
      | error e => rw [hps] at h2; exact absurd h2 (by simp)
      | ok st1 =>
        rw [hps] at h2
        have hu : ReachableN w cfg u d :=
          hf (u, d) (by rw [hfr]; exact List.mem_cons_self ..)
        have hf1 : ∀ p ∈ ({ st with frontier := rest } : CrawlState).frontier,
            ReachableN w cfg p.1 p.2 :=
          fun p hp => hf p (by rw [hfr]; exact List.mem_cons_of_mem _ hp)
        have hinv := parseStep_inv w cfg u d _ st1 hps hu hf1 hs
        exact ih st1 st' h2 hinv.1 hinv.2

/-- An engine-reachable page sits at a depth within the bound. -/
theorem ReachableN.le_maxDepth {w : Web} {cfg : CrawlConfig} {u : Url}
    {n : Nat} (h : ReachableN w cfg u n) : n ≤ cfg.maxDepth := by
  induction h with
  | start => exact Nat.zero_le _
  | step _ hlt _ _ _ _ => omega

/-- An engine-reachable page has the start URL's host. -/
theorem ReachableN.host_eq {w : Web} {cfg : CrawlConfig} {u : Url}
    {n : Nat} (h : ReachableN w cfg u n) :
    w.host u = w.host cfg.startUrl := by
  induction h with
  | start => rfl
  | step _ _ _ _ hh _ => exact hh

/-- Engine reachability implies raw link-graph reachability in the same
number of hops. -/
theorem ReachableN.toRaw {w : Web} {cfg : CrawlConfig} {u : Url} {n : Nat}
    (h : ReachableN w cfg u n) : ReachableRaw w cfg u n := by
  induction h with
  | start => exact .start
  | step _ _ hl _ _ ih => exact .step ih hl

/-- From the initial state, a normally-ending crawl persists only
engine-reachable pages. -/
theorem crawlRun_init_saved (w : Web) (cfg : CrawlConfig) (fuel : Nat)
    (st' : CrawlState)
    (h : crawlRun w cfg fuel (initState cfg) = .ok st') :
    ∀ e ∈ st'.saved, ReachableN w cfg e.1 e.2.1 := by
  have hf : ∀ p ∈ (initState cfg).frontier, ReachableN w cfg p.1 p.2 := by
    intro p hp
    have : p = (cfg.startUrl, 0) := by simpa [initState] using hp
    subst this
    exact ReachableN.start
  have hs : ∀ e ∈ (initState cfg).saved, ReachableN w cfg e.1 e.2.1 := by
    intro e he
    exact absurd he (by simp [initState])
  exact crawlRun_saved w cfg fuel (initState cfg) st' h hf hs

/-- C3: links are extracted and followed only from pages whose depth is
strictly below the bound and are enqueued at `depth + 1` (the two side
conditions of `ReachableN.step`, coming from `processPage`), so every page
a normally-ending crawl persists is engine-reachable at its recorded depth,
that depth is at most `maxDepth`, and in particular the page is reachable
from the start URL by a raw link chain of at most `maxDepth` hops — no page
is fetched that would require a longer chain. -/
theorem crawl_depth_confinement (w : Web) (cfg : CrawlConfig) (fuel : Nat)
    (st' : CrawlState)
    (h : crawlRun w cfg fuel (initState cfg) = .ok st')
    (e : Url × Nat × String) (he : e ∈ st'.saved) :
    ReachableN w cfg e.1 e.2.1 ∧ e.2.1 ≤ cfg.maxDepth ∧
    ∃ n, n ≤ cfg.maxDepth ∧ ReachableRaw w cfg e.1 n := by
  have hr := crawlRun_init_saved w cfg fuel st' h e he
  exact ⟨hr, hr.le_maxDepth, e.2.1, hr.le_maxDepth, hr.toRaw⟩

/-- A two-page web for concrete crawl runs: the start page `s` links to
`a`, every URL has the same host. -/
def w0 : Web :=
  { host := fun _ => "h", links := fun u => if u = "s" then ["a"] else [] }

/-- Concrete crawl configuration: depth bound 1, no user filter, save
paths under the pre-existing directory `r`. -/
def cfg0 : CrawlConfig :=
  { startUrl := "s", maxDepth := 1, filterUrls := none,
    mkMissingDirs := true, urlToFilepath := fun u => "r/" ++ u,
    initialDirs := ["r"] }

/-- C3 (witness): the concrete crawl persists `a` at depth 1, and the
theorem instantiates on it. -/
theorem crawl_depth_confinement_witness :
    crawlRun w0 cfg0 5 (initState cfg0) =
      .ok { frontier := [], visited := ["a", "s"], dirs := ["r"],
            saved := [("s", 0, "r/s"), ("a", 1, "r/a")] } ∧
    (ReachableN w0 cfg0 ("a") 1 ∧ 1 ≤ cfg0.maxDepth ∧
     ∃ n, n ≤ cfg0.maxDepth ∧ ReachableRaw w0 cfg0 ("a") n) :=
  ⟨rfl,
   crawl_depth_confinement w0 cfg0 5
     { frontier := [], visited := ["a", "s"], dirs := ["r"],
       saved := [("s", 0, "r/s"), ("a", 1, "r/a")] }
     rfl ("a", 1, "r/a") (by simp)⟩

/-- C4: without an explicit domain override, the allowed domain set is
exactly the singleton of the start URL's host (util.py line 112), and
every page a normally-ending crawl persists has the start URL's host —
links to other hosts are never followed, so no file is persisted for
them. -/
theorem crawl_domain_confinement (w : Web) (cfg : CrawlConfig) (fuel : Nat)
    (st' : CrawlState)
    (h : crawlRun w cfg fuel (initState cfg) = .ok st')
    (e : Url × Nat × String) (he : e ∈ st'.saved) :
    allowedDomains w cfg = [w.host cfg.startUrl] ∧
    w.host e.1 = w.host cfg.startUrl :=
  ⟨rfl, (crawlRun_init_saved w cfg fuel st' h e he).host_eq⟩

/-- C4 (witness): the concrete crawl, instantiated at the persisted start
page. -/
theorem crawl_domain_confinement_witness :
    crawlRun w0 cfg0 5 (initState cfg0) =
      .ok { frontier := [], visited := ["a", "s"], dirs := ["r"],
            saved := [("s", 0, "r/s"), ("a", 1, "r/a")] } ∧
    (allowedDomains w0 cfg0 = [w0.host cfg0.startUrl] ∧
     w0.host ("s") = w0.host cfg0.startUrl) :=
  ⟨rfl,
   crawl_domain_confinement w0 cfg0 5
     { frontier := [], visited := ["a", "s"], dirs := ["r"],
       saved := [("s", 0, "r/s"), ("a", 1, "r/a")] }
     rfl ("s", 0, "r/s") (by simp)⟩

/-- C7: for a fetched page whose computed save directory does not exist:
with `mk_missing_dirs` set, the directory is created and the page is
persisted; with the flag unset, `parse` raises the missing-directory error
(`FileNotFoundError` in the source, `MissingDirectoryError` in the spec)
and the whole crawl run aborts with that error — the remaining frontier is
not processed and nothing further is persisted. -/
theorem crawl_missing_dir_policy (w : Web) (cfg : CrawlConfig) (u : Url)
    (d : Nat) (st : CrawlState)
    (hmiss : dirname (cfg.urlToFilepath u) ∉ st.dirs) :
    (cfg.mkMissingDirs = true →
       parseStep w cfg u d st =
         .ok (processPage w cfg u d
           { st with dirs := dirname (cfg.urlToFilepath u) :: st.dirs }) ∧
       dirname (cfg.urlToFilepath u) ∈
         (processPage w cfg u d
           { st with
               dirs := dirname (cfg.urlToFilepath u) :: st.dirs }).dirs ∧
       (u, d, cfg.urlToFilepath u) ∈
         (processPage w cfg u d
           { st with
               dirs := dirname (cfg.urlToFilepath u) :: st.dirs }).saved) ∧
    (cfg.mkMissingDirs = false →
       parseStep w cfg u d st = .error .missingDirectory ∧
       ∀ fuel rest,
         crawlRun w cfg (fuel + 1) { st with frontier := (u, d) :: rest } =
           .error .missingDirectory) := by
  constructor
  · intro hmk
    refine ⟨?_, ?_, ?_⟩
    · rw [parseStep, if_neg hmiss, if_pos hmk]
    · rw [processPage_dirs]
      exact List.mem_cons_self ..
    · rw [processPage_saved]
      simp
  · intro hmk
    have herr : ∀ st1 : CrawlState, dirname (cfg.urlToFilepath u) ∉ st1.dirs →
        parseStep w cfg u d st1 = .error .missingDirectory := by
      intro st1 h1
      rw [parseStep, if_neg h1, if_neg (by simp [hmk])]
    refine ⟨herr st hmiss, ?_⟩
    intro fuel rest
    rw [crawlRun]
    have h2 : ({ st with frontier := (u, d) :: rest } : CrawlState).frontier =
        (u, d) :: rest := rfl
    rw [h2]
    have h3 := herr { st with frontier := rest } hmiss
    simp only [h3]

/-- Concrete crawl configuration with no pre-existing directories and
directory creation enabled. -/
def cfgT : CrawlConfig :=
  { startUrl := "s", maxDepth := 1, filterUrls := none,
    mkMissingDirs := true, urlToFilepath := fun u => "r/" ++ u,
    initialDirs := [] }

/-- The same configuration with directory creation disabled. -/
def cfgF : CrawlConfig :=
  { startUrl := "s", maxDepth := 1, filterUrls := none,
    mkMissingDirs := false, urlToFilepath := fun u => "r/" ++ u,
    initialDirs := [] }

/-- C7 (witness): with creation enabled the start page's directory is
created and the page persisted; with it disabled the step errors and a run
holding that page aborts. -/
theorem crawl_missing_dir_policy_witness :
    dirname (cfgT.urlToFilepath ("s")) ∉ (initState cfgT).dirs ∧
    (parseStep w0 cfgT ("s") 0 (initState cfgT) =
       .ok (processPage w0 cfgT ("s") 0
         { initState cfgT with
             dirs := dirname (cfgT.urlToFilepath ("s")) ::
               (initState cfgT).dirs }) ∧
     dirname (cfgT.urlToFilepath ("s")) ∈
       (processPage w0 cfgT ("s") 0
         { initState cfgT with
             dirs := dirname (cfgT.urlToFilepath ("s")) ::
               (initState cfgT).dirs }).dirs ∧
     ("s", 0, cfgT.urlToFilepath ("s")) ∈
       (processPage w0 cfgT ("s") 0
         { initState cfgT with
             dirs := dirname (cfgT.urlToFilepath ("s")) ::
               (initState cfgT).dirs }).saved) ∧
    parseStep w0 cfgF ("s") 0 (initState cfgF) = .error .missingDirectory ∧
    crawlRun w0 cfgF 4 { initState cfgF with frontier := [("s", 0)] } =
      .error .missingDirectory :=
  ⟨by decide,
   (crawl_missing_dir_policy w0 cfgT ("s") 0 (initState cfgT) (by decide)).1
     rfl,
   ((crawl_missing_dir_policy w0 cfgF ("s") 0 (initState cfgF)
       (by decide)).2 rfl).1,
   ((crawl_missing_dir_policy w0 cfgF ("s") 0 (initState cfgF)
       (by decide)).2 rfl).2 3 []⟩

/-- Characterization of the scraping generator: the written files are the
successful sites' outputs in order, and the yielded failures are exactly
the sites whose scrape raised. -/
theorem scrapeGen_eq (scrape : String → Except String String)
    (saveDir : String) : ∀ m : List (String × String),
    scrapeGen scrape saveDir m =
      (m.filterMap (fun p =>
         match scrape p.2 with
         | .ok md => some (saveDir ++ "/" ++ p.1 ++ ".md", md)
         | .error _ => none),
       m.filter (fun p => ! exceptIsOk (scrape p.2))) := by
  intro m
  induction m with
  | nil => rfl
  | cons p rest ih =>
    obtain ⟨name, url⟩ := p
    cases hs : scrape url with
    | ok md => simp [scrapeGen, hs, ih, exceptIsOk]
    | error e => simp [scrapeGen, hs, ih, exceptIsOk]

/-- C8: with an existing save directory, `scrape_multiple_sites` returns
normally; an exception while scraping a single site is caught and that
site's `(name, url)` pair appears in the returned mapping of failures,
sites that succeed do not appear there (their output is written instead),
and a non-directory `save_dir` raises `NotADirectoryError` immediately,
before any scraping. -/
theorem scrape_multiple_sites_error_policy (isDir : String → Bool)
    (scrape : String → Except String String)
    (m : List (String × String)) (sd : String) :
    (isDir sd = true →
       scrape_multiple_sites isDir scrape m sd =
         .ok (m.filterMap (fun p =>
                match scrape p.2 with
                | .ok md => some (sd ++ "/" ++ p.1 ++ ".md", md)
                | .error _ => none),
              m.filter (fun p => ! exceptIsOk (scrape p.2)))) ∧
    (isDir sd = false →
       scrape_multiple_sites isDir scrape m sd = .error .notADirectory) := by
  constructor
  · intro h
    rw [scrape_multiple_sites, if_pos h, scrapeGen_eq]
  · intro h
    rw [scrape_multiple_sites, if_neg (by simp [h])]

/-- A concrete scrape function for the witness: `u1` succeeds, everything
else raises. -/
def scrapeW : String → Except String String :=
  fun u => if u = "u1" then .ok ("m1") else .error ("boom")

/-- A concrete two-site batch for the witness. -/
def mW : List (String × String) := [("good", "u1"), ("bad", "u2")]

/-- C8 (witness): the batch with one succeeding and one failing site, under
an existing and under a non-existing save directory. -/
theorem scrape_multiple_sites_error_policy_witness :
    ((fun _ => true : String → Bool) ("dir") = true) ∧
    scrape_multiple_sites (fun _ => true) scrapeW mW ("dir") =
      .ok (mW.filterMap (fun p =>
             match scrapeW p.2 with
             | .ok md => some ("dir" ++ "/" ++ p.1 ++ ".md", md)
             | .error _ => none),
           mW.filter (fun p => ! exceptIsOk (scrapeW p.2))) ∧
    ((fun _ => false : String → Bool) ("dir") = false) ∧
    scrape_multiple_sites (fun _ => false) scrapeW mW ("dir") =
      .error .notADirectory :=
  ⟨rfl,
   (scrape_multiple_sites_error_policy (fun _ => true) scrapeW mW ("dir")).1
     rfl,
   rfl,
   (scrape_multiple_sites_error_policy (fun _ => false) scrapeW mW ("dir")).2
     rfl⟩
